import Mathlib

/-!
Shallow embedding of the HerLang gentle concurrency runtime
(src/runtime/gentle_concurrency.hpp) and theorems settling the
specification's claims about it.

Each C++ class becomes a Lean structure and each member function a pure
function on that structure.  Every member function of these classes runs
under the object's own mutex, so an execution of one object is a sequence
of atomic operations on its state; a call that would block on a condition
variable is modelled by an `Option` result whose `none` means "cannot
complete from this state without another thread acting", and step
relations enumerate the completions the condition-variable waits allow.
-/

namespace HerLang

/-- Error raised by `GentleOwnership` when the value was already moved
out: the `std::runtime_error` thrown at gentle_concurrency.hpp lines
40, 50 and 59. -/
inductive OwnershipError where
  | useAfterTransfer
  deriving DecidableEq, Repr

/-- Model of `GentleOwnership<T>` (gentle_concurrency.hpp lines 24-75):
`data_` is a `unique_ptr<T>`, empty (null) once the value has been moved
out, modelled as `Option T`; `owner_name_` is the owner label.  The
per-object `mutex_` serializes the member functions and is not part of
the state. -/
structure GentleOwnership (T : Type) where
  data : Option T
  owner_name : String
  deriving DecidableEq, Repr

namespace GentleOwnership

/-- The constructor (line 32): wraps the value, records the owner label. -/
def make (value : T) (owner : String) : GentleOwnership T :=
  { data := some value, owner_name := owner }

/-- Member `borrow_gently` (lines 36-43): under the lock, if `data_` is null
throw the use-after-transfer error, otherwise apply `func` to the value
and return its result.  Read-only access: the state is unchanged, so
only the result is returned. -/
def borrow_gently (c : GentleOwnership T) (func : T → R) :
    Except OwnershipError R :=
  match c.data with
  | none => .error .useAfterTransfer
  | some v => .ok (func v)

/-- Member `borrow_mutably` (lines 46-53): under the lock, if `data_` is null
throw, otherwise apply `func` with mutable access.  `func` is modelled
as returning the updated value together with its result. -/
def borrow_mutably (c : GentleOwnership T) (func : T → T × R) :
    GentleOwnership T × Except OwnershipError R :=
  match c.data with
  | none => (c, .error .useAfterTransfer)
  | some v => ({ c with data := some (func v).1 }, .ok (func v).2)

/-- Member `transfer_with_care` (lines 56-67): under the lock, if `data_` is
null throw; otherwise set `owner_name_` to the new owner and move the
value out, leaving `data_` null, and return the moved value. -/
def transfer_with_care (c : GentleOwnership T) (new_owner : String) :
    GentleOwnership T × Except OwnershipError T :=
  match c.data with
  | none => (c, .error .useAfterTransfer)
  | some v => ({ data := none, owner_name := new_owner }, .ok v)

/-- Member `is_available` (lines 69-72). -/
def is_available (c : GentleOwnership T) : Bool :=
  c.data.isSome

/-- Member `current_owner` (line 74). -/
def current_owner (c : GentleOwnership T) : String :=
  c.owner_name

/-- One call on a `GentleOwnership` object, for reasoning about whole
operation sequences.  A mutable borrow's callback is restricted to a
state update `T → T` (result type `Unit`); a shared borrow cannot touch
the state at all. -/
inductive CellOp (T : Type) where
  | borrowShared
  | borrowMut (f : T → T)
  | xfer (new_owner : String)

/-- State reached after one `CellOp`, in terms of the member functions
above (`borrow_gently` leaves the state unchanged). -/
def applyOp (c : GentleOwnership T) : CellOp T → GentleOwnership T
  | .borrowShared => c
  | .borrowMut f => (c.borrow_mutably fun v => (f v, ())).1
  | .xfer o => (c.transfer_with_care o).1

/-- State reached after a sequence of calls. -/
def applySeq (c : GentleOwnership T) (ops : List (CellOp T)) :
    GentleOwnership T :=
  ops.foldl applyOp c

theorem applyOp_data_none {T : Type} (c : GentleOwnership T)
    (h : c.data = none) (op : CellOp T) : (applyOp c op).data = none := by
  cases op with
  | borrowShared => exact h
  | borrowMut f => simp [applyOp, borrow_mutably, h]
  | xfer o => simp [applyOp, transfer_with_care, h]

theorem applySeq_data_none {T : Type} (c : GentleOwnership T)
    (h : c.data = none) (ops : List (CellOp T)) :
    (applySeq c ops).data = none := by
  induction ops generalizing c with
  | nil => exact h
  | cons op rest ih =>
      exact ih (applyOp c op) (applyOp_data_none c h op)

end GentleOwnership

/-- C1: on an `OwnershipCell` whose value has been transferred out
(`data = none`), every `borrow_shared`, `borrow_exclusive` and
`transfer` call fails with `UseAfterTransfer` and leaves the state
unchanged, and no sequence of further operations ever refills the cell:
it stays permanently empty. -/
theorem c1_use_after_transfer_permanent {T R : Type}
    (c : GentleOwnership T) (h : c.data = none)
    (f : T → R) (g : T → T × R) (new_owner : String)
    (ops : List (GentleOwnership.CellOp T)) :
    c.borrow_gently f = .error .useAfterTransfer ∧
    c.borrow_mutably g = (c, .error .useAfterTransfer) ∧
    c.transfer_with_care new_owner = (c, .error .useAfterTransfer) ∧
    (c.applySeq ops).data = none := by
  refine ⟨?_, ?_, ?_, GentleOwnership.applySeq_data_none c h ops⟩
  · simp [GentleOwnership.borrow_gently, h]
  · simp [GentleOwnership.borrow_mutably, h]
  · simp [GentleOwnership.transfer_with_care, h]

/-- Witness for C1 at a concrete transferred-out cell: transfer value 0
away from owner "A", then check all three operations fail and a sample
operation sequence leaves the cell empty. -/
theorem c1_witness :
    (((GentleOwnership.make (0 : Nat) "A").transfer_with_care "B").1.borrow_gently
        (fun v => v) = .error .useAfterTransfer) ∧
    (((GentleOwnership.make (0 : Nat) "A").transfer_with_care "B").1.borrow_mutably
        (fun v => (v + 1, v)) =
      (((GentleOwnership.make (0 : Nat) "A").transfer_with_care "B").1,
        .error .useAfterTransfer)) ∧
    (((GentleOwnership.make (0 : Nat) "A").transfer_with_care "B").1.transfer_with_care
        "C" =
      (((GentleOwnership.make (0 : Nat) "A").transfer_with_care "B").1,
        .error .useAfterTransfer)) ∧
    ((((GentleOwnership.make (0 : Nat) "A").transfer_with_care "B").1.applySeq
        [.borrowShared, .borrowMut (fun v => v + 1), .xfer "D"]).data = none) := by
  have h := c1_use_after_transfer_permanent
    (((GentleOwnership.make (0 : Nat) "A").transfer_with_care "B").1)
    rfl (fun v => v) (fun v => (v + 1, v)) "C"
    [.borrowShared, .borrowMut (fun v => v + 1), .xfer "D"]
  exact ⟨h.1, h.2.1, h.2.2.1, h.2.2.2⟩

/-- C7: `transfer(new_owner)` on a cell that still holds its value moves
the value out, updates the owner label, and returns the value; in the
spec's scenario, a cell owned by "A" holding 0, incremented to 1 by
`borrow_exclusive`, answers `transfer("B")` with value 1 and thereafter
reports owner "B" (and is empty). -/
theorem c7_transfer_moves_value {T : Type}
    (c : GentleOwnership T) (v : T) (new_owner : String)
    (h : c.data = some v) :
    c.transfer_with_care new_owner =
      ({ data := none, owner_name := new_owner }, .ok v) ∧
    ((c.transfer_with_care new_owner).1.current_owner = new_owner ∧
      (c.transfer_with_care new_owner).1.is_available = false) := by
  constructor
  · simp [GentleOwnership.transfer_with_care, h]
  · constructor
    · simp [GentleOwnership.transfer_with_care, h,
        GentleOwnership.current_owner]
    · simp [GentleOwnership.transfer_with_care, h,
        GentleOwnership.is_available]

/-- Witness for C7: the spec scenario.  Cell owned by "A" holding 0;
`borrow_mutably` increments it to 1; `transfer "B"` returns 1, the owner
becomes "B", and a subsequent `borrow_gently` fails with
`UseAfterTransfer`. -/
theorem c7_witness :
    (((GentleOwnership.make (0 : Nat) "A").borrow_mutably
        (fun v => (v + 1, ()))).1.data = some 1) ∧
    ((((GentleOwnership.make (0 : Nat) "A").borrow_mutably
        (fun v => (v + 1, ()))).1.transfer_with_care "B") =
      ({ data := none, owner_name := "B" }, .ok 1)) ∧
    (((((GentleOwnership.make (0 : Nat) "A").borrow_mutably
        (fun v => (v + 1, ()))).1.transfer_with_care "B").1.current_owner = "B") ∧
    ((((GentleOwnership.make (0 : Nat) "A").borrow_mutably
        (fun v => (v + 1, ()))).1.transfer_with_care "B").1.borrow_gently
        (fun v => v) = .error .useAfterTransfer)) := by
  have h := c7_transfer_moves_value
    (((GentleOwnership.make (0 : Nat) "A").borrow_mutably
        (fun v => (v + 1, ()))).1) 1 "B" rfl
  exact ⟨rfl, h.1, h.2.1, rfl⟩

/-- Model of `GentleChannel<T>` (gentle_concurrency.hpp lines 329-403):
`queue_` (a FIFO `std::queue<T>`, front = head of the list), the
`closed_` flag and `max_capacity_`.  `mutex_` and `cv_` serialize the
member functions and are not part of the state. -/
structure GentleChannel (T : Type) where
  queue : List T
  closed : Bool
  max_capacity : Nat
  deriving DecidableEq, Repr

namespace GentleChannel

/-- The default value of the constructor's `capacity` argument
(line 339). -/
def defaultCapacity : Nat := 100

/-- The constructor (line 339): empty open channel with the given
capacity. -/
def make (T : Type) (capacity : Nat) : GentleChannel T :=
  { queue := [], closed := false, max_capacity := capacity }

/-- Member `send_with_care` (lines 342-361): if closed, return `false`; then
wait until `closed_ || queue_.size() < max_capacity_`; if closed after
the wait return `false`, else enqueue at the back and return `true`.
The two closed checks collapse to one in the atomic model; `none` means
the call is blocked in `cv_.wait` (open channel at capacity) and its
completion linearizes later from whatever state the wakeup finds, which
is exactly a later `ChanStep.send`. -/
def send_with_care (s : GentleChannel T) (value : T) :
    Option (GentleChannel T × Bool) :=
  if s.closed then some (s, false)
  else if s.queue.length < s.max_capacity then
    some ({ s with queue := s.queue ++ [value] }, true)
  else none

/-- Member `receive_with_patience` (lines 364-382): wait until
`!queue_.empty() || closed_`; if the queue is empty (hence closed)
return `nullopt` (end of channel), else pop the front element.  `none`
means the call is blocked (empty open channel). -/
def receive_with_patience (s : GentleChannel T) :
    Option (GentleChannel T × Option T) :=
  match s.queue with
  | [] => if s.closed then some (s, none) else none
  | v :: rest => some ({ s with queue := rest }, some v)

/-- Member `close_gently` (lines 385-392): set the closed flag (idempotent). -/
def close_gently (s : GentleChannel T) : GentleChannel T :=
  { s with closed := true }

/-- Member `is_closed` (lines 394-397). -/
def is_closed (s : GentleChannel T) : Bool :=
  s.closed

/-- Member `size` (lines 399-402). -/
def size (s : GentleChannel T) : Nat :=
  s.queue.length

/-- One completed channel operation, at its linearization point (the
region where the operation holds `mutex_`).  Any interleaving of
concurrent senders, receivers and closers is a sequence of these steps,
a sender blocked at the capacity wait contributing its step only when
it completes. -/
inductive ChanStep {T : Type} : GentleChannel T → GentleChannel T → Prop where
  | send {s s' : GentleChannel T} (v : T) (ok : Bool)
      (h : send_with_care s v = some (s', ok)) : ChanStep s s'
  | recv {s s' : GentleChannel T} (r : Option T)
      (h : receive_with_patience s = some (s', r)) : ChanStep s s'
  | close (s : GentleChannel T) : ChanStep s (close_gently s)

/-- Channel states reachable from a fresh channel of the given
capacity. -/
inductive ChanReach {T : Type} (capacity : Nat) : GentleChannel T → Prop where
  | init : ChanReach capacity (make T capacity)
  | step {s s' : GentleChannel T} (hs : ChanReach capacity s)
      (h : ChanStep s s') : ChanReach capacity s'

theorem chanStep_capacity {T : Type} {s s' : GentleChannel T}
    (h : ChanStep s s') : s'.max_capacity = s.max_capacity := by
  cases h with
  | send v ok h =>
      unfold send_with_care at h
      split at h
      · simp at h; simp [h.1.symm]
      · split at h
        · simp at h; simp [h.1.symm]
        · simp at h
  | recv r h =>
      unfold receive_with_patience at h
      split at h
      · split at h
        · simp at h; simp [h.1.symm]
        · simp at h
      · simp at h; simp [h.1.symm]
  | close => rfl

theorem chanStep_closed_mono {T : Type} {s s' : GentleChannel T}
    (h : ChanStep s s') (hc : s.closed = true) :
    s'.closed = true ∧ s'.queue.Sublist s.queue := by
  cases h with
  | send v ok h =>
      simp [send_with_care, hc] at h
      simp [h.1.symm, hc]
  | recv r h =>
      unfold receive_with_patience at h
      split at h
      next heq =>
        simp [hc] at h
        simp [h.1.symm, hc, heq]
      next v rest heq =>
        simp at h
        simp [h.1.symm, hc, heq]
  | close =>
      exact ⟨rfl, List.Sublist.refl s.queue⟩

theorem chanStep_length {T : Type} {s s' : GentleChannel T}
    (h : ChanStep s s') (hlen : s.queue.length ≤ s.max_capacity) :
    s'.queue.length ≤ s'.max_capacity := by
  have hcap := chanStep_capacity h
  cases h with
  | send v ok h =>
      unfold send_with_care at h
      split at h
      · simp at h; simp [h.1.symm]; exact hlen
      · split at h
        next hlt =>
          simp at h
          simp [h.1.symm]
          exact hlt
        · simp at h
  | recv r h =>
      unfold receive_with_patience at h
      split at h
      next heq =>
        split at h
        · simp at h; simp [h.1.symm]; exact hlen
        · simp at h
      next v rest heq =>
        simp at h
        rw [h.1.symm] at hcap ⊢
        simp at hcap ⊢
        rw [heq] at hlen
        simp at hlen
        omega
  | close => exact hlen

theorem chanReach_inv {T : Type} {capacity : Nat} {s : GentleChannel T}
    (h : ChanReach capacity s) :
    s.max_capacity = capacity ∧ s.queue.length ≤ capacity := by
  induction h with
  | init => exact ⟨rfl, Nat.zero_le capacity⟩
  | step hs hstep ih =>
      have hcap := chanStep_capacity hstep
      refine ⟨hcap.trans ih.1, ?_⟩
      have := chanStep_length hstep (by rw [ih.1]; exact ih.2)
      rw [hcap, ih.1] at this
      exact this

/-- Repeated `receive_with_patience`, threading the state and collecting
the received values; stops at end-of-channel, and `drain` makes no
progress on a call that would block (empty open channel). -/
def drain {T : Type} : Nat → GentleChannel T → List T × GentleChannel T
  | 0, s => ([], s)
  | n + 1, s =>
      match receive_with_patience s with
      | some (s', some v) =>
          let r := drain n s'
          (v :: r.1, r.2)
      | some (s', none) => ([], s')
      | none => ([], s)

theorem drain_closed {T : Type} (q : List T) (s : GentleChannel T)
    (hc : s.closed = true) (hq : s.queue = q) :
    drain q.length s = (q, ⟨[], true, s.max_capacity⟩) := by
  induction q generalizing s with
  | nil =>
      show ([], s) = ([], ⟨[], true, s.max_capacity⟩)
      cases s
      simp_all
  | cons v rest ih =>
      have hrecv : receive_with_patience s = some ({ s with queue := rest }, some v) := by
        simp [receive_with_patience, hq]
      simp only [List.length_cons, drain, hrecv]
      have := ih { s with queue := rest } hc rfl
      simp at this
      simp [this]

end GentleChannel

/-- C2: in every reachable channel state the queued length is at most
the capacity fixed at construction, and any single completed operation
from a closed state keeps the channel closed and enqueues nothing (the
new queue is a sublist of the old one) — in particular a sender that was
blocked waiting when `close` happened completes without enqueuing. -/
theorem c2_channel_capacity_closed_invariants {T : Type} (capacity : Nat)
    (s s' : GentleChannel T) (hs : GentleChannel.ChanReach capacity s)
    (hstep : GentleChannel.ChanStep s s') :
    s.queue.length ≤ capacity ∧ s'.queue.length ≤ capacity ∧
    (s.closed = true → s'.closed = true ∧ s'.queue.Sublist s.queue) := by
  refine ⟨(GentleChannel.chanReach_inv hs).2,
    (GentleChannel.chanReach_inv (hs.step hstep)).2, ?_⟩
  exact fun hc => GentleChannel.chanStep_closed_mono hstep hc

/-- Witness for C2: the channel of capacity 2 reached by sending 5 and
closing; the step is a blocked sender completing after the close, which
fails without enqueuing. -/
theorem c2_witness :
    (⟨[5], true, 2⟩ : GentleChannel Nat).queue.length ≤ 2 ∧
    (⟨[5], true, 2⟩ : GentleChannel Nat).queue.length ≤ 2 ∧
    ((⟨[5], true, 2⟩ : GentleChannel Nat).closed = true →
      (⟨[5], true, 2⟩ : GentleChannel Nat).closed = true ∧
      (⟨[5], true, 2⟩ : GentleChannel Nat).queue.Sublist [5]) := by
  have h1 : GentleChannel.ChanStep (GentleChannel.make Nat 2)
      (⟨[5], false, 2⟩ : GentleChannel Nat) :=
    GentleChannel.ChanStep.send 5 true rfl
  have h2 : GentleChannel.ChanStep (⟨[5], false, 2⟩ : GentleChannel Nat)
      (⟨[5], true, 2⟩ : GentleChannel Nat) :=
    GentleChannel.ChanStep.close ⟨[5], false, 2⟩
  have hreach : GentleChannel.ChanReach 2 (⟨[5], true, 2⟩ : GentleChannel Nat) :=
    ((GentleChannel.ChanReach.init).step h1).step h2
  have hstep : GentleChannel.ChanStep (⟨[5], true, 2⟩ : GentleChannel Nat)
      (⟨[5], true, 2⟩ : GentleChannel Nat) :=
    GentleChannel.ChanStep.send 7 false rfl
  exact c2_channel_capacity_closed_invariants 2 ⟨[5], true, 2⟩ ⟨[5], true, 2⟩
    hreach hstep

/-- C3: on a closed channel, draining the queue by repeated `receive`
returns exactly the queued items in FIFO order; once drained, every
further `receive` immediately returns the end-of-channel result (and
repeating it any number of times yields nothing more), and every `send`
returns `false` without enqueuing. -/
theorem c3_closed_channel_fifo_drain {T : Type} (s : GentleChannel T)
    (hclosed : s.closed = true) :
    GentleChannel.drain s.queue.length s =
      (s.queue, ⟨[], true, s.max_capacity⟩) ∧
    (∀ k : Nat,
      GentleChannel.drain k (⟨[], true, s.max_capacity⟩ : GentleChannel T) =
        ([], ⟨[], true, s.max_capacity⟩)) ∧
    (⟨[], true, s.max_capacity⟩ : GentleChannel T).receive_with_patience =
      some (⟨[], true, s.max_capacity⟩, none) ∧
    (∀ v : T, s.send_with_care v = some (s, false)) := by
  refine ⟨GentleChannel.drain_closed s.queue s hclosed rfl, ?_, rfl, ?_⟩
  · intro k
    cases k with
    | zero => rfl
    | succ n => rfl
  · intro v
    simp [GentleChannel.send_with_care, hclosed]

/-- Witness for C3: a closed channel of capacity 5 holding 1, 2, 3 is
drained in FIFO order, stays at end-of-channel afterwards, and rejects a
send of 7. -/
theorem c3_witness :
    GentleChannel.drain 3 (⟨[1, 2, 3], true, 5⟩ : GentleChannel Nat) =
      ([1, 2, 3], ⟨[], true, 5⟩) ∧
    GentleChannel.drain 4 (⟨[], true, 5⟩ : GentleChannel Nat) =
      ([], ⟨[], true, 5⟩) ∧
    (⟨[], true, 5⟩ : GentleChannel Nat).receive_with_patience =
      some (⟨[], true, 5⟩, none) ∧
    (⟨[1, 2, 3], true, 5⟩ : GentleChannel Nat).send_with_care 7 =
      some (⟨[1, 2, 3], true, 5⟩, false) := by
  have h := c3_closed_channel_fifo_drain
    (⟨[1, 2, 3], true, 5⟩ : GentleChannel Nat) rfl
  exact ⟨h.1, h.2.1 4, h.2.2.1, h.2.2.2 7⟩

/-- Repeated `send_with_care`, threading the state: `none` as soon as
one send blocks (open channel at capacity), otherwise the final state
and the list of per-send results. -/
def sendSeq {T : Type} : List T → GentleChannel T → Option (GentleChannel T × List Bool)
  | [], s => some (s, [])
  | v :: vs, s =>
      match GentleChannel.send_with_care s v with
      | some (s', ok) =>
          match sendSeq vs s' with
          | some (sf, oks) => some (sf, ok :: oks)
          | none => none
      | none => none

set_option maxRecDepth 8000 in
/-- C10: a channel constructed without an explicit capacity argument has
capacity exactly 100: on a fresh default channel all of the first 100
sends (the 100th included) complete successfully, and a further send
with 100 items queued blocks (makes no progress without a receiver). -/
theorem c10_default_capacity_is_100 :
    GentleChannel.defaultCapacity = 100 ∧
    sendSeq (List.range 100) (GentleChannel.make Nat GentleChannel.defaultCapacity) =
      some (⟨List.range 100, false, 100⟩, List.replicate 100 true) ∧
    (⟨List.range 100, false, 100⟩ : GentleChannel Nat).send_with_care 100 = none := by
  refine ⟨rfl, by decide, by decide⟩

/-- Completion state of a task, per the spec's data model; the C++
coroutine has no explicit state enum, the handle being done standing
for Completed or Failed. -/
inductive TaskStatus where
  | created
  | suspended
  | completed
  | failed
  deriving DecidableEq, Repr

/-- One resume of the coroutine body either reaches a suspension point
or raises a failure; when the list below is exhausted the body runs to
completion on the next resume. -/
inductive StepOutcome where
  | suspends
  | raises (msg : String)
  deriving DecidableEq, Repr

/-- Model of `GentleTask` (gentle_concurrency.hpp lines 78-139):
`status` abstracts the coroutine handle's progress, `continuation` the
remaining behavior of the coroutine body, one entry consumed per
resume.  `task_name_` is kept; `created_at_` (wall-clock) is not
modelled. -/
structure GentleTask where
  status : TaskStatus
  continuation : List StepOutcome
  task_name : String
  deriving DecidableEq, Repr

namespace GentleTask

/-- Member `is_done` (lines 125-127): the handle is absent or finished, which
in the spec's state model is Completed or Failed. -/
def is_done (t : GentleTask) : Bool :=
  match t.status with
  | .completed => true
  | .failed => true
  | _ => false

/-- Member `resume_gently` (lines 129-138): if not done, resume the coroutine
to its next suspension point, completion, or failure.  A failure raised
by the body is swallowed by `promise_type::unhandled_exception` (lines
87-89) and the handle still runs to its final suspend point (done); any
exception escaping `handle_.resume()` itself is caught and logged by
the `try`/`catch` at lines 131-136.  Both handlers collapse to the
`raises` branch here: the result type has no error case, so no failure
propagates to the caller of `resume_gently`. -/
def resume_gently (t : GentleTask) : GentleTask :=
  if t.is_done then t
  else
    match t.continuation with
    | [] => { t with status := .completed }
    | .suspends :: rest => { t with status := .suspended, continuation := rest }
    | .raises _ :: rest => { t with status := .failed, continuation := rest }

end GentleTask

/-- Model of `GentleScheduler` (lines 162-288): the ready queue
`tasks_` (back of the vector = end of the list) and the three atomic
counters.  `pending_completed` counts workers that have executed
`active_tasks_.fetch_sub(1)` (line 274) but not yet
`total_tasks_completed_.fetch_add(1)` (line 275); the two are separate
atomic operations with no lock held, so other threads can observe the
state in between.  Worker threads, `cv_` and `should_stop_` carry no
counter state and are not modelled. -/
structure GentleScheduler where
  tasks : List GentleTask
  active : Nat
  created : Nat
  completed : Nat
  pending_completed : Nat
  deriving DecidableEq, Repr

namespace GentleScheduler

/-- A scheduler as constructed (lines 176-184): no tasks, all counters
zero. -/
def make : GentleScheduler :=
  { tasks := [], active := 0, created := 0, completed := 0,
    pending_completed := 0 }

/-- Member `spawn_gently` (lines 191-201): append the task to the ready queue
and increment `active` then `created` (both under the queue lock,
`active` first, so no observable state has the task counted in
`created` but not in `active`; the two increments are collapsed into
one step, which hides no state in which `active` reads zero). -/
def spawn_gently (s : GentleScheduler) (t : GentleTask) : GentleScheduler :=
  { s with tasks := s.tasks ++ [t], active := s.active + 1, created := s.created + 1 }

/-- One full worker-loop pass (lines 252-284) when not stopping: with
an empty queue the worker keeps waiting; otherwise take the task at the
back of the queue (`tasks_.back()` then `pop_back()`, lines 263-266),
resume it, and either count it finished or push it back (lines
269-283).  Both counter updates of the finish path are included: this
is the pass's net effect. -/
def worker_iteration (s : GentleScheduler) : GentleScheduler :=
  match s.tasks.getLast? with
  | none => s
  | some t =>
      let rest := s.tasks.dropLast
      let t' := t.resume_gently
      if t'.is_done then
        { s with tasks := rest, active := s.active - 1, completed := s.completed + 1 }
      else
        { s with tasks := rest ++ [t'] }

/-- Member `await_all_with_patience` (lines 204-213) polls `active_tasks_` at a
fixed interval and returns exactly when a poll reads zero. -/
def await_all_returns (s : GentleScheduler) : Prop :=
  s.active = 0

/-- One atomic step of the scheduler at the granularity other threads
can observe: `spawn` (lines 191-198); the finish path of the worker
loop split into `finishDec` (lines 263-274: pop the back task, resume
it to done, `active_tasks_.fetch_sub(1)`) and `finishInc` (line 275:
`total_tasks_completed_.fetch_add(1)`); and `requeue` (lines 263-266
and 279-282: pop, resume, task not done, push back). -/
inductive SchedStep : GentleScheduler → GentleScheduler → Prop where
  | spawn {s : GentleScheduler} (t : GentleTask) :
      SchedStep s (spawn_gently s t)
  | finishDec {s : GentleScheduler} (q : List GentleTask) (t : GentleTask)
      (hq : s.tasks = q ++ [t]) (hd : t.resume_gently.is_done = true) :
      SchedStep s { s with tasks := q, active := s.active - 1, pending_completed := s.pending_completed + 1 }
  | finishInc {s : GentleScheduler} (hp : 0 < s.pending_completed) :
      SchedStep s { s with completed := s.completed + 1, pending_completed := s.pending_completed - 1 }
  | requeue {s : GentleScheduler} (q : List GentleTask) (t : GentleTask)
      (hq : s.tasks = q ++ [t]) (hd : t.resume_gently.is_done = false) :
      SchedStep s { s with tasks := q ++ [t.resume_gently] }

/-- Scheduler states reachable from a fresh scheduler. -/
inductive SchedReach : GentleScheduler → Prop where
  | init : SchedReach make
  | step {s s' : GentleScheduler} (hs : SchedReach s) (h : SchedStep s s') :
      SchedReach s'

theorem schedStep_counters {s s' : GentleScheduler} (h : SchedStep s s')
    (hact : s.active = s.tasks.length)
    (hcre : s.created = s.active + s.completed + s.pending_completed) :
    s'.active = s'.tasks.length ∧
    s'.created = s'.active + s'.completed + s'.pending_completed := by
  cases h with
  | spawn t =>
      simp [spawn_gently, hact]
      omega
  | finishDec q t hq hd =>
      simp [hq] at hact
      constructor
      · simp; omega
      · simp; omega
  | finishInc hp =>
      constructor
      · simpa using hact
      · simp; omega
  | requeue q t hq hd =>
      simp [hq] at hact
      constructor
      · simp; omega
      · simp; omega

theorem schedReach_counters {s : GentleScheduler} (h : SchedReach s) :
    s.active = s.tasks.length ∧
    s.created = s.active + s.completed + s.pending_completed := by
  induction h with
  | init => exact ⟨rfl, rfl⟩
  | step hs hstep ih => exact schedStep_counters hstep ih.1 ih.2

end GentleScheduler

/-- C4 (amended): when `await_all` returns — a poll of the `active`
counter read zero — and additionally no worker sits between its two
counter updates (`pending_completed = 0`), the counters satisfy
`completed = created` and `active = 0`.  Without the quiescence
condition the property fails in the window between lines 274 and 275;
see the counterexample. -/
theorem c4_await_all_counters_amended (s : GentleScheduler)
    (hreach : GentleScheduler.SchedReach s)
    (hret : s.await_all_returns) (hquiet : s.pending_completed = 0) :
    s.completed = s.created ∧ s.active = 0 := by
  have h := GentleScheduler.schedReach_counters hreach
  have h0 : s.active = 0 := hret
  omega

/-- Witness for C4 (amended): spawn one immediately-completing task,
run the worker's finish path to the end; `await_all`'s poll reads zero
and `completed = created = 1`. -/
theorem c4_witness :
    (⟨[], 0, 1, 1, 0⟩ : GentleScheduler).completed =
      (⟨[], 0, 1, 1, 0⟩ : GentleScheduler).created ∧
    (⟨[], 0, 1, 1, 0⟩ : GentleScheduler).active = 0 := by
  have h0 : GentleScheduler.SchedReach
      (⟨[⟨.created, [], "t"⟩], 1, 1, 0, 0⟩ : GentleScheduler) :=
    GentleScheduler.SchedReach.init.step
      (GentleScheduler.SchedStep.spawn ⟨.created, [], "t"⟩)
  have h1 : GentleScheduler.SchedStep
      (⟨[⟨.created, [], "t"⟩], 1, 1, 0, 0⟩ : GentleScheduler)
      (⟨[], 0, 1, 0, 1⟩ : GentleScheduler) :=
    GentleScheduler.SchedStep.finishDec [] ⟨.created, [], "t"⟩ rfl rfl
  have h2 : GentleScheduler.SchedStep
      (⟨[], 0, 1, 0, 1⟩ : GentleScheduler)
      (⟨[], 0, 1, 1, 0⟩ : GentleScheduler) :=
    GentleScheduler.SchedStep.finishInc (by decide)
  exact c4_await_all_counters_amended ⟨[], 0, 1, 1, 0⟩
    ((h0.step h1).step h2) rfl rfl

/-- C4 counterexample: spawn one task that completes on its first
resume; the state after the worker's `active_tasks_.fetch_sub(1)` (line
274) but before its `total_tasks_completed_.fetch_add(1)` (line 275) is
reachable, `await_all`'s poll of `active` reads zero there — so
`await_all` returns — yet `completed = 0 ≠ 1 = created`. -/
theorem c4_counterexample :
    GentleScheduler.SchedReach (⟨[], 0, 1, 0, 1⟩ : GentleScheduler) ∧
    (⟨[], 0, 1, 0, 1⟩ : GentleScheduler).await_all_returns ∧
    ¬((⟨[], 0, 1, 0, 1⟩ : GentleScheduler).completed =
        (⟨[], 0, 1, 0, 1⟩ : GentleScheduler).created) := by
  have h0 : GentleScheduler.SchedReach
      (⟨[⟨.created, [], "t"⟩], 1, 1, 0, 0⟩ : GentleScheduler) :=
    GentleScheduler.SchedReach.init.step
      (GentleScheduler.SchedStep.spawn ⟨.created, [], "t"⟩)
  have h1 : GentleScheduler.SchedStep
      (⟨[⟨.created, [], "t"⟩], 1, 1, 0, 0⟩ : GentleScheduler)
      (⟨[], 0, 1, 0, 1⟩ : GentleScheduler) :=
    GentleScheduler.SchedStep.finishDec [] ⟨.created, [], "t"⟩ rfl rfl
  exact ⟨h0.step h1, rfl, by decide⟩

/-- C5: a failure raised while resuming a task's continuation is caught
at the resume boundary: the task's state becomes Failed (and reads as
done), `resume_gently` returns normally (its result type has no error
case — the `try`/`catch` at lines 131-136 together with
`promise_type::unhandled_exception` at lines 87-89 let nothing escape),
and the worker-loop pass that resumed it proceeds normally, counting
the task and leaving the rest of the queue untouched, so nothing
propagates to the worker thread, other tasks, or the caller of
`spawn`/`await_all`. -/
theorem c5_failure_caught_at_resume (t : GentleTask) (msg : String)
    (rest : List StepOutcome) (hnd : t.is_done = false)
    (hc : t.continuation = .raises msg :: rest) :
    t.resume_gently.status = .failed ∧
    t.resume_gently.is_done = true ∧
    (∀ (s : GentleScheduler) (q : List GentleTask), s.tasks = q ++ [t] →
      s.worker_iteration = { s with tasks := q, active := s.active - 1, completed := s.completed + 1 }) := by
  have hres : t.resume_gently = { t with status := .failed, continuation := rest } := by
    simp [GentleTask.resume_gently, hnd, hc]
  refine ⟨by simp [hres], by simp [hres, GentleTask.is_done], ?_⟩
  intro s q hq
  unfold GentleScheduler.worker_iteration
  rw [hq, List.getLast?_concat, List.dropLast_concat]
  simp [hres, GentleTask.is_done]

/-- Witness for C5: a suspended task whose next resume raises "boom",
alone in the queue of a scheduler with one active task. -/
theorem c5_witness :
    (⟨.suspended, [.raises "boom"], "t"⟩ : GentleTask).resume_gently.status
      = .failed ∧
    (⟨.suspended, [.raises "boom"], "t"⟩ : GentleTask).resume_gently.is_done
      = true ∧
    (⟨[⟨.suspended, [.raises "boom"], "t"⟩], 1, 1, 0, 0⟩
        : GentleScheduler).worker_iteration = ⟨[], 0, 1, 1, 0⟩ := by
  have h := c5_failure_caught_at_resume ⟨.suspended, [.raises "boom"], "t"⟩
    "boom" [] rfl rfl
  exact ⟨h.1, h.2.1,
    h.2.2 ⟨[⟨.suspended, [.raises "boom"], "t"⟩], 1, 1, 0, 0⟩ [] rfl⟩

/-- C6: each worker-loop pass with a non-empty ready queue removes the
task at the queue end (last-in picked), resumes it, and then either —
if the task is now done — decrements `active` by one and increments
`completed` by one, or — if not — pushes the resumed task back onto the
queue. -/
theorem c6_worker_pass_last_in (s : GentleScheduler)
    (q : List GentleTask) (t : GentleTask) (hq : s.tasks = q ++ [t]) :
    s.worker_iteration =
      if t.resume_gently.is_done then
        { s with tasks := q, active := s.active - 1, completed := s.completed + 1 }
      else
        { s with tasks := q ++ [t.resume_gently] } := by
  unfold GentleScheduler.worker_iteration
  rw [hq, List.getLast?_concat, List.dropLast_concat]

/-- Witness for C6, one instance of each branch: a task that
re-suspends is resumed and pushed back; a task that completes is
removed and counted. -/
theorem c6_witness :
    (⟨[⟨.created, [.suspends], "u"⟩], 1, 1, 0, 0⟩
        : GentleScheduler).worker_iteration =
      ⟨[⟨.suspended, [], "u"⟩], 1, 1, 0, 0⟩ ∧
    (⟨[⟨.suspended, [], "u"⟩], 1, 1, 0, 0⟩
        : GentleScheduler).worker_iteration = ⟨[], 0, 1, 1, 0⟩ := by
  constructor
  · exact (c6_worker_pass_last_in ⟨[⟨.created, [.suspends], "u"⟩], 1, 1, 0, 0⟩
      [] ⟨.created, [.suspends], "u"⟩ rfl).trans (by decide)
  · exact (c6_worker_pass_last_in ⟨[⟨.suspended, [], "u"⟩], 1, 1, 0, 0⟩
      [] ⟨.suspended, [], "u"⟩ rfl).trans (by decide)

/-- Model of `GentleMemoryPool` (gentle_concurrency.hpp lines 406-452).
A block address is the natural number
`slab * (block_size * blocks_per_pool) + i * block_size` for block `i`
of slab `slab`: each slab is one contiguous
`new std::byte[block_size * blocks_per_pool]` region of exactly that
extent and distinct live heap regions are disjoint, so laying the slabs
out back to back preserves every pointer equality and inequality of the
C++ — and within one slab the offset `i * block_size` is the pointer
arithmetic of line 446 verbatim.  Of `pools_` only the slab count
matters. -/
structure GentleMemoryPool where
  pools : Nat
  free_blocks : List Nat
  block_size : Nat
  blocks_per_pool : Nat
  deriving DecidableEq, Repr

namespace GentleMemoryPool

/-- Address of block `i` of slab `k` (line 446: `base + i * block_size_`
with the slab bases laid out consecutively). -/
def addr (p : GentleMemoryPool) (k i : Nat) : Nat :=
  k * (p.block_size * p.blocks_per_pool) + i * p.block_size

/-- Member `allocate_new_pool` (lines 441-451): allocate one more slab and push
the addresses of its `blocks_per_pool_` blocks onto the free list in
block order. -/
def allocate_new_pool (p : GentleMemoryPool) : GentleMemoryPool :=
  { p with
      pools := p.pools + 1
      free_blocks :=
        p.free_blocks ++ (List.range p.blocks_per_pool).map (p.addr p.pools) }

/-- The constructor (lines 415-418): record the block geometry and
allocate the first slab. -/
def make (block_size initial_blocks : Nat) : GentleMemoryPool :=
  allocate_new_pool
    { pools := 0, free_blocks := [], block_size := block_size,
      blocks_per_pool := initial_blocks }

/-- The refill step at the top of `allocate_gently` (lines 423-425): a
new slab is appended exactly when the free list is empty. -/
def refill (p : GentleMemoryPool) : GentleMemoryPool :=
  if p.free_blocks = [] then allocate_new_pool p else p

/-- Member `allocate_gently` (lines 420-432): if the free list is empty refill
it from a new slab (`refill`), then pop the back of the free list
(`free_blocks_.back()` + `pop_back()`).  `none` models the undefined
`back()` on a still-empty vector, reachable only when
`blocks_per_pool = 0`. -/
def allocate_gently (p : GentleMemoryPool) : Option (Nat × GentleMemoryPool) :=
  match (refill p).free_blocks.getLast? with
  | none => none
  | some a =>
      some (a, { refill p with free_blocks := (refill p).free_blocks.dropLast })

/-- Member `deallocate_gently` (lines 434-438): push the address back onto the
free list; no validation of any kind. -/
def deallocate_gently (p : GentleMemoryPool) (ptr : Nat) : GentleMemoryPool :=
  { p with free_blocks := p.free_blocks ++ [ptr] }

/-- A pool together with the list of currently outstanding addresses
(returned by `allocate` and not yet passed to `deallocate`) —
bookkeeping for stating allocator correctness, not part of the C++
state. -/
structure PoolModel where
  pool : GentleMemoryPool
  outstanding : List Nat
  deriving DecidableEq, Repr

/-- One API call under the claim's discipline: any `allocate`, or a
`deallocate` whose argument is currently outstanding (it was obtained
from this pool's `allocate` and is not already free). -/
inductive PoolStep : PoolModel → PoolModel → Prop where
  | alloc {m : PoolModel} (a : Nat) (p' : GentleMemoryPool)
      (h : m.pool.allocate_gently = some (a, p')) :
      PoolStep m ⟨p', a :: m.outstanding⟩
  | dealloc {m : PoolModel} (a : Nat) (h : a ∈ m.outstanding) :
      PoolStep m ⟨m.pool.deallocate_gently a, m.outstanding.erase a⟩

/-- Pool states reachable from a fresh pool through disciplined use. -/
inductive PoolReach (block_size initial_blocks : Nat) : PoolModel → Prop where
  | init :
      PoolReach block_size initial_blocks ⟨make block_size initial_blocks, []⟩
  | step {m m' : PoolModel} (hm : PoolReach block_size initial_blocks m)
      (h : PoolStep m m') : PoolReach block_size initial_blocks m'

/-- A successful `allocate_gently` pops the back of the refilled free
list, everything else unchanged. -/
theorem allocate_gently_pop {p p' : GentleMemoryPool} {a : Nat}
    (h : p.allocate_gently = some (a, p')) :
    (refill p).free_blocks = p'.free_blocks ++ [a] ∧
    p' = { refill p with free_blocks := (refill p).free_blocks.dropLast } := by
  unfold allocate_gently at h
  rcases hlast : (refill p).free_blocks.getLast? with _ | b
  · rw [hlast] at h; exact absurd h (by simp)
  · rw [hlast] at h
    simp only [Option.some.injEq, Prod.mk.injEq] at h
    obtain ⟨rfl, rfl⟩ := h
    have hne : (refill p).free_blocks ≠ [] := by
      intro hc; rw [hc] at hlast; simp at hlast
    have hgl : (refill p).free_blocks.getLast hne = b :=
      Option.some.inj ((List.getLast?_eq_getLast _ hne).symm.trans hlast)
    refine ⟨?_, rfl⟩
    show (refill p).free_blocks = (refill p).free_blocks.dropLast ++ [b]
    rw [← hgl]
    exact (List.dropLast_append_getLast hne).symm

/-- Allocator invariant: the geometry is the configured one, no address
is both free and outstanding (or listed twice), and every tracked
address is a block of an existing slab. -/
def Valid (bs n : Nat) (m : PoolModel) : Prop :=
  m.pool.block_size = bs ∧ m.pool.blocks_per_pool = n ∧
  (m.pool.free_blocks ++ m.outstanding).Nodup ∧
  ∀ x ∈ m.pool.free_blocks ++ m.outstanding,
    ∃ k i, k < m.pool.pools ∧ i < n ∧ x = k * (bs * n) + i * bs

theorem valid_allocate_new_pool {bs n : Nat} (hbs : 0 < bs) {m : PoolModel}
    (hv : Valid bs n m) :
    Valid bs n ⟨m.pool.allocate_new_pool, m.outstanding⟩ := by
  obtain ⟨hb, hn, hnd, hbound⟩ := hv
  have haddr : ∀ i, m.pool.addr m.pool.pools i =
      m.pool.pools * (bs * n) + i * bs := by
    intro i; simp [addr, hb, hn]
  have hold_lt : ∀ x ∈ m.pool.free_blocks ++ m.outstanding,
      x < m.pool.pools * (bs * n) := by
    intro x hx
    obtain ⟨k, i, hk, hi, hxe⟩ := hbound x hx
    have hib : i * bs < bs * n := by
      have h1 : i * bs < n * bs := (Nat.mul_lt_mul_right hbs).mpr hi
      rw [Nat.mul_comm n bs] at h1
      exact h1
    calc x = k * (bs * n) + i * bs := hxe
      _ < k * (bs * n) + bs * n := Nat.add_lt_add_left hib _
      _ = (k + 1) * (bs * n) := (Nat.succ_mul k (bs * n)).symm
      _ ≤ m.pool.pools * (bs * n) := Nat.mul_le_mul_right _ hk
  have hnew_ge : ∀ y ∈ (List.range m.pool.blocks_per_pool).map
      (m.pool.addr m.pool.pools), m.pool.pools * (bs * n) ≤ y := by
    intro y hy
    simp only [List.mem_map, List.mem_range] at hy
    obtain ⟨i, _, hye⟩ := hy
    rw [← hye, haddr i]
    exact Nat.le_add_right _ _
  have hinj : Function.Injective (m.pool.addr m.pool.pools) := by
    intro i j hij
    rw [haddr i, haddr j] at hij
    have h2 : i * bs = j * bs := Nat.add_left_cancel hij
    exact Nat.eq_of_mul_eq_mul_right hbs h2
  have hnew_nodup : ((List.range m.pool.blocks_per_pool).map
      (m.pool.addr m.pool.pools)).Nodup :=
    (List.nodup_range m.pool.blocks_per_pool).map hinj
  refine ⟨hb, hn, ?_, ?_⟩
  · show ((m.pool.free_blocks ++ (List.range m.pool.blocks_per_pool).map
        (m.pool.addr m.pool.pools)) ++ m.outstanding).Nodup
    have hperm : ((m.pool.free_blocks ++ (List.range m.pool.blocks_per_pool).map
        (m.pool.addr m.pool.pools)) ++ m.outstanding).Perm
        ((m.pool.free_blocks ++ m.outstanding) ++
          (List.range m.pool.blocks_per_pool).map (m.pool.addr m.pool.pools)) := by
      rw [List.append_assoc, List.append_assoc]
      exact List.Perm.append_left _ List.perm_append_comm
    refine hperm.nodup_iff.mpr ?_
    rw [List.nodup_append]
    refine ⟨hnd, hnew_nodup, ?_⟩
    intro x hx hx2
    exact Nat.lt_irrefl x (Nat.lt_of_lt_of_le (hold_lt x hx) (hnew_ge x hx2))
  · intro x hx
    replace hx : x ∈ (m.pool.free_blocks ++ (List.range m.pool.blocks_per_pool).map
        (m.pool.addr m.pool.pools)) ++ m.outstanding := hx
    show ∃ k i, k < m.pool.pools + 1 ∧ i < n ∧ x = k * (bs * n) + i * bs
    simp only [List.mem_append] at hx
    rcases hx with (hx | hx) | hx
    · obtain ⟨k, i, hk, hi, hxe⟩ := hbound x (List.mem_append.mpr (Or.inl hx))
      exact ⟨k, i, Nat.lt_succ_of_lt hk, hi, hxe⟩
    · simp only [List.mem_map, List.mem_range] at hx
      obtain ⟨i, hi, hye⟩ := hx
      rw [hn] at hi
      exact ⟨m.pool.pools, i, Nat.lt_succ_self _, hi, by rw [← hye, haddr i]⟩
    · obtain ⟨k, i, hk, hi, hxe⟩ := hbound x (List.mem_append.mpr (Or.inr hx))
      exact ⟨k, i, Nat.lt_succ_of_lt hk, hi, hxe⟩

theorem valid_refill {bs n : Nat} (hbs : 0 < bs) {m : PoolModel}
    (hv : Valid bs n m) : Valid bs n ⟨m.pool.refill, m.outstanding⟩ := by
  unfold refill
  split
  · exact valid_allocate_new_pool hbs hv
  · exact hv

theorem valid_step {bs n : Nat} (hbs : 0 < bs) {m m' : PoolModel}
    (hstep : PoolStep m m') (hv : Valid bs n m) : Valid bs n m' := by
  cases hstep with
  | alloc a p' h =>
      obtain ⟨hpop, hp'⟩ := allocate_gently_pop h
      obtain ⟨hb1, hn1, hnd1, hbound1⟩ := valid_refill hbs hv
      have hlist : p'.free_blocks ++ (a :: m.outstanding) =
          (m.pool.refill.free_blocks ++ m.outstanding : List Nat) := by
        rw [hpop]
        simp
      refine ⟨?_, ?_, ?_, ?_⟩
      · rw [hp']; exact hb1
      · rw [hp']; exact hn1
      · show (p'.free_blocks ++ (a :: m.outstanding)).Nodup
        rw [hlist]; exact hnd1
      · intro x hx
        replace hx : x ∈ p'.free_blocks ++ (a :: m.outstanding) := hx
        rw [hlist] at hx
        obtain ⟨k, i, hk, hi, hxe⟩ := hbound1 x hx
        exact ⟨k, i, by rw [hp']; exact hk, hi, hxe⟩
  | dealloc a h =>
      obtain ⟨hb, hn, hnd, hbound⟩ := hv
      have hperm : ((m.pool.deallocate_gently a).free_blocks ++
          m.outstanding.erase a).Perm (m.pool.free_blocks ++ m.outstanding) := by
        show ((m.pool.free_blocks ++ [a]) ++ m.outstanding.erase a).Perm
          (m.pool.free_blocks ++ m.outstanding)
        rw [List.append_assoc]
        show (m.pool.free_blocks ++ (a :: m.outstanding.erase a)).Perm
          (m.pool.free_blocks ++ m.outstanding)
        exact List.Perm.append_left _ (List.perm_cons_erase h).symm
      refine ⟨hb, hn, ?_, ?_⟩
      · show ((m.pool.deallocate_gently a).free_blocks ++
          m.outstanding.erase a).Nodup
        exact hperm.nodup_iff.mpr hnd
      · intro x hx
        replace hx : x ∈ (m.pool.deallocate_gently a).free_blocks ++
            m.outstanding.erase a := hx
        obtain ⟨k, i, hk, hi, hxe⟩ := hbound x (hperm.mem_iff.mp hx)
        exact ⟨k, i, hk, hi, hxe⟩

theorem poolReach_valid {bs n : Nat} (hbs : 0 < bs) {m : PoolModel}
    (h : PoolReach bs n m) : Valid bs n m := by
  induction h with
  | init =>
      have hbase : Valid bs n
          ⟨{ pools := 0, free_blocks := [], block_size := bs,
             blocks_per_pool := n }, []⟩ := by
        refine ⟨rfl, rfl, by simp, ?_⟩
        intro x hx
        simp at hx
      exact valid_allocate_new_pool hbs hbase
  | step hm hstep ih => exact valid_step hbs hstep ih

end GentleMemoryPool

/-- C8 (amended): for a pool whose block size is positive, under the
claim's deallocate discipline a successful `allocate` pops exactly one
address from the back of the free list — which was first refilled with
a full new slab when it was empty, and left alone otherwise — and the
returned address differs from every currently outstanding allocation.
Without `0 < block_size` the distinctness fails (all block addresses of
a slab coincide); see the counterexample. -/
theorem c8_allocate_fresh_amended (bs n : Nat) (hbs : 0 < bs)
    (m : GentleMemoryPool.PoolModel)
    (hreach : GentleMemoryPool.PoolReach bs n m)
    (a : Nat) (p' : GentleMemoryPool)
    (halloc : m.pool.allocate_gently = some (a, p')) :
    a ∉ m.outstanding ∧
    m.pool.refill.free_blocks = p'.free_blocks ++ [a] ∧
    (m.pool.free_blocks = [] →
      m.pool.refill = m.pool.allocate_new_pool) ∧
    (m.pool.free_blocks ≠ [] → m.pool.refill = m.pool) := by
  obtain ⟨hpop, hp'⟩ := GentleMemoryPool.allocate_gently_pop halloc
  obtain ⟨_, _, hnd1, _⟩ := GentleMemoryPool.valid_refill hbs
    (GentleMemoryPool.poolReach_valid hbs hreach)
  refine ⟨?_, hpop, fun hc => by simp [GentleMemoryPool.refill, hc],
    fun hc => by simp [GentleMemoryPool.refill, hc]⟩
  have hmem : a ∈ m.pool.refill.free_blocks := by rw [hpop]; simp
  have hdisj := List.disjoint_of_nodup_append hnd1
  exact fun hout => hdisj hmem hout

/-- Witness for C8 (amended): pool with 1-byte blocks, one block per
slab; address 0 is outstanding and the free list is empty, so the next
`allocate` appends a second slab and pops address 1, distinct from the
outstanding address 0. -/
theorem c8_witness :
    (1 : Nat) ∉ (⟨⟨1, [], 1, 1⟩, [0]⟩ : GentleMemoryPool.PoolModel).outstanding ∧
    (⟨1, [], 1, 1⟩ : GentleMemoryPool).refill.free_blocks =
      (⟨2, [], 1, 1⟩ : GentleMemoryPool).free_blocks ++ [1] ∧
    ((⟨1, [], 1, 1⟩ : GentleMemoryPool).free_blocks = [] →
      (⟨1, [], 1, 1⟩ : GentleMemoryPool).refill =
        (⟨1, [], 1, 1⟩ : GentleMemoryPool).allocate_new_pool) ∧
    ((⟨1, [], 1, 1⟩ : GentleMemoryPool).free_blocks ≠ [] →
      (⟨1, [], 1, 1⟩ : GentleMemoryPool).refill = ⟨1, [], 1, 1⟩) := by
  have h0 : GentleMemoryPool.PoolStep ⟨GentleMemoryPool.make 1 1, []⟩
      (⟨⟨1, [], 1, 1⟩, [0]⟩ : GentleMemoryPool.PoolModel) :=
    GentleMemoryPool.PoolStep.alloc 0 ⟨1, [], 1, 1⟩ rfl
  exact c8_allocate_fresh_amended 1 1 (by decide) ⟨⟨1, [], 1, 1⟩, [0]⟩
    (GentleMemoryPool.PoolReach.init.step h0) 1 ⟨2, [], 1, 1⟩ rfl

/-- C8 counterexample: a pool constructed with `block_size = 0` and two
blocks per slab.  Both blocks of the single slab have the same address
(`base + 0 * 0 = base + 1 * 0`), so after one disciplined `allocate`
(address 0 outstanding, nothing deallocated) the next `allocate`
returns address 0 again — equal to a currently outstanding
allocation. -/
theorem c8_counterexample :
    GentleMemoryPool.PoolReach 0 2
      (⟨⟨1, [0], 0, 2⟩, [0]⟩ : GentleMemoryPool.PoolModel) ∧
    (⟨1, [0], 0, 2⟩ : GentleMemoryPool).allocate_gently =
      some (0, ⟨1, [], 0, 2⟩) ∧
    (0 : Nat) ∈ (⟨⟨1, [0], 0, 2⟩, [0]⟩ : GentleMemoryPool.PoolModel).outstanding := by
  have h0 : GentleMemoryPool.PoolStep ⟨GentleMemoryPool.make 0 2, []⟩
      (⟨⟨1, [0], 0, 2⟩, [0]⟩ : GentleMemoryPool.PoolModel) :=
    GentleMemoryPool.PoolStep.alloc 0 ⟨1, [0], 0, 2⟩ rfl
  exact ⟨GentleMemoryPool.PoolReach.init.step h0, rfl, by simp⟩

/-- C9: the free list is last-in first-out: from any pool state,
`deallocate(p)` followed immediately by `allocate()` returns exactly
`p` and restores the pool state completely. -/
theorem c9_dealloc_alloc_roundtrip (p : GentleMemoryPool) (ptr : Nat) :
    (p.deallocate_gently ptr).allocate_gently = some (ptr, p) := by
  have hr : (p.deallocate_gently ptr).refill = p.deallocate_gently ptr := by
    unfold GentleMemoryPool.refill
    simp [GentleMemoryPool.deallocate_gently]
  unfold GentleMemoryPool.allocate_gently
  rw [hr]
  simp [GentleMemoryPool.deallocate_gently, List.getLast?_concat,
    List.dropLast_concat]

end HerLang
